import Mathlib

/-!
Verification development for the mcp-package-version tool server.

The Go handlers under `internal/handlers` are embedded shallowly:
Go maps become association lists (lookup takes the first binding, and map
update is modelled by shadowing cons), HTTP fetches become oracle functions
returning `Except String α`, and the process-wide `sync.Map` cache becomes an
association list threaded through explicitly, instrumented with the insertion
instant so that time-related properties can be stated (the `Load`/`Store`
operations themselves never read the clock, exactly as in the source).
-/

namespace PkgVer

/-- Modelled from the spec: the Go source file declaring the shared result
struct `PackageVersion` is not in the repository snapshot (only its callers
are).  Fields follow spec section 3 and every construction site in the
handlers: `name`, optional `currentVersion`, `latestVersion`, `registry`,
`skipped`, `skipReason`.  Go zero values (empty string, `false`, `nil`
pointer) are written out explicitly at each construction site. -/
structure PackageVersion where
  name : String
  currentVersion : Option String
  latestVersion : String
  registry : String
  skipped : Bool
  skipReason : String
deriving Repr, DecidableEq

/-- Modelled from the spec: per-package constraint with an optional
`majorVersion` (a non-negative integer per spec section 3) and an
`excludePackage` flag; the Go declaration is not in the snapshot. -/
structure VersionConstraint where
  majorVersion : Option Nat
  excludePackage : Bool
deriving Repr, DecidableEq

/-- Constraint table: Go `map[string]VersionConstraint`, modelled as an
association list with first-binding lookup. -/
def VersionConstraints := List (String × VersionConstraint)

/-- Whether the constraints table excludes the given package, mirroring the Go
idiom `if constraint, ok := constraints[name]; ok && constraint.ExcludePackage`. -/
def constraintExcludes (cs : VersionConstraints) (name : String) : Bool :=
  match List.lookup name cs with
  | some c => c.excludePackage
  | none => false

/-- Numeric component of a dotted version: all-digit, non-empty. -/
def natComp (cs : List Char) : Option Nat :=
  if cs ≠ [] ∧ cs.all Char.isDigit then
    some (cs.foldl (fun n c => n * 10 + (c.toNat - 48)) 0)
  else none

/-- Modelled from the spec: `parse(v) → (major, minor, patch)` of section 4.2 —
split on `.`, accept at most three numeric components, tolerate missing
minor/patch (default 0), fail for any non-numeric component.  The Go
`ParseVersion` helper is not in the repository snapshot. -/
def ParseVersion (v : String) : Option (Nat × Nat × Nat) :=
  match v.data.splitOn '.' with
  | [a] => (natComp a).map (fun x => (x, 0, 0))
  | [a, b] => match natComp a, natComp b with
    | some x, some y => some (x, y, 0)
    | _, _ => none
  | [a, b, c] => match natComp a, natComp b, natComp c with
    | some x, some y, some z => some (x, y, z)
    | _, _, _ => none
  | _ => none

/-- Lexicographic comparison of parsed version triples. -/
def cmpTriple (x y : Nat × Nat × Nat) : Int :=
  if x.1 < y.1 then -1 else if y.1 < x.1 then 1
  else if x.2.1 < y.2.1 then -1 else if y.2.1 < x.2.1 then 1
  else if x.2.2 < y.2.2 then -1 else if y.2.2 < x.2.2 then 1 else 0

/-- Modelled from the spec: `compare(a, b) → {-1, 0, 1}` of section 4.2,
lexicographic on the parsed triples; the Go helper returns an error when a
side fails to parse, which callers treat as a skip, so the model returns
`none` in that case. -/
def CompareVersions (a b : String) : Option Int :=
  match ParseVersion a, ParseVersion b with
  | some x, some y => some (cmpTriple x y)
  | _, _ => none

/-- Go whitespace class `\s` = `[ \t\n\f\r]` plus `\v` for `TrimSpace`. -/
def goSpace (c : Char) : Bool :=
  c = ' ' ∨ c = '\t' ∨ c = '\n' ∨ c = '\x0b' ∨ c = '\x0c' ∨ c = '\r'

/-- Character-level trim of surrounding whitespace (Go `strings.TrimSpace`
restricted to the ASCII space class, which is all the inputs exercised
here contain). -/
def trimGoL (cs : List Char) : List Char :=
  ((cs.dropWhile goSpace).reverse.dropWhile goSpace).reverse

/-- Boolean list prefix test, used to model `strings.HasPrefix`. -/
def hasPfxL : List Char → List Char → Bool
  | [], _ => true
  | _ :: _, [] => false
  | p :: ps, t :: ts => p == t && hasPfxL ps ts

/-- Boolean substring test, used to model `strings.Contains`. -/
def containsL (pat : List Char) : List Char → Bool
  | [] => pat == []
  | t :: ts => hasPfxL pat (t :: ts) || containsL pat ts

/-- Go `strings.TrimPrefix`: drop the prefix when present, else unchanged. -/
def dropPfxL (p cs : List Char) : List Char :=
  if hasPfxL p cs then cs.drop p.length else cs

/-- Modelled from the spec: `clean(v)` of section 4.2 — trim whitespace, then
remove a single leading occurrence from the prefix set
`^ ~ >= <= > < = ! v`, then trim again.  The Go `CleanVersion` helper is not
in the repository snapshot. -/
def CleanVersion (v : String) : String :=
  let t := trimGoL v.data
  let t2 :=
    if hasPfxL ['>', '='] t ∨ hasPfxL ['<', '='] t then t.drop 2
    else if t.head? = some '^' ∨ t.head? = some '~' ∨ t.head? = some '>' ∨
        t.head? = some '<' ∨ t.head? = some '=' ∨ t.head? = some '!' ∨
        t.head? = some 'v' then t.drop 1
    else t
  (trimGoL t2).asString

/-- Lexicographic (codepoint, hence for UTF-8 text also byte) order on
character lists: the order `sort.Strings` and the name sorts of the handlers
use, stated at a level the kernel can evaluate. -/
def listLeChars : List Char → List Char → Bool
  | [], _ => true
  | _ :: _, [] => false
  | a :: as, b :: bs =>
    if a < b then true else if b < a then false else listLeChars as bs

def listLeChars_total : ∀ a b, listLeChars a b = true ∨ listLeChars b a = true := by
  intro a
  induction a with
  | nil => intro b; exact Or.inl rfl
  | cons x xs ih =>
    intro b
    cases b with
    | nil => exact Or.inr rfl
    | cons y ys =>
      by_cases hxy : x < y
      · exact Or.inl (by simp [listLeChars, hxy])
      · by_cases hyx : y < x
        · exact Or.inr (by simp [listLeChars, hyx, asymm hyx])
        · rcases ih ys with h | h
          · exact Or.inl (by simp [listLeChars, hxy, hyx, h])
          · exact Or.inr (by simp [listLeChars, hxy, hyx, h])

def listLeChars_trans :
    ∀ a b c, listLeChars a b = true → listLeChars b c = true →
      listLeChars a c = true := by
  intro a
  induction a with
  | nil => intro b c _ _; rfl
  | cons x xs ih =>
    intro b c hab hbc
    cases b with
    | nil => simp [listLeChars] at hab
    | cons y ys =>
      cases c with
      | nil => simp [listLeChars] at hbc
      | cons z zs =>
        simp only [listLeChars] at hab hbc ⊢
        by_cases hxy : x < y
        · by_cases hyz : y < z
          · simp [lt_trans hxy hyz]
          · by_cases hzy : z < y
            · simp [listLeChars, hyz, hzy] at hbc
            · have hyz' : y = z := le_antisymm (not_lt.mp hzy) (not_lt.mp hyz)
              simp [hyz' ▸ hxy]
        · by_cases hyx : y < x
          · simp [hxy, hyx] at hab
          · have hxy' : x = y := le_antisymm (not_lt.mp hyx) (not_lt.mp hxy)
            subst hxy'
            simp only [lt_irrefl, if_false, if_neg] at hab
            by_cases hxz : x < z
            · simp [hxz]
            · by_cases hzx : z < x
              · simp [hxz, hzx] at hbc
              · have := ih ys zs (by simpa using hab) (by simpa [hxz, hzx] using hbc)
                simp [hxz, hzx, this]

def listLeChars_antisymm :
    ∀ a b, listLeChars a b = true → listLeChars b a = true → a = b := by
  intro a
  induction a with
  | nil =>
    intro b _ hba
    cases b with
    | nil => rfl
    | cons y ys => simp [listLeChars] at hba
  | cons x xs ih =>
    intro b hab hba
    cases b with
    | nil => simp [listLeChars] at hab
    | cons y ys =>
      simp only [listLeChars] at hab hba
      by_cases hxy : x < y
      · simp [hxy, asymm hxy] at hba
      · by_cases hyx : y < x
        · simp [hxy, hyx] at hab
        · have hxy' : x = y := le_antisymm (not_lt.mp hyx) (not_lt.mp hxy)
          subst hxy'
          simp only [lt_irrefl, if_false, if_neg] at hab hba
          rw [ih ys (by simpa using hab) (by simpa using hba)]

/-- Ordering on plain strings used by `sort.Strings`. -/
def strLe (a b : String) : Prop := listLeChars a.data b.data = true

instance : DecidableRel strLe := fun a b =>
  inferInstanceAs (Decidable (listLeChars a.data b.data = true))

instance : IsTotal String strLe := ⟨fun a b => listLeChars_total a.data b.data⟩

instance : IsTrans String strLe :=
  ⟨fun _ _ _ h h' => listLeChars_trans _ _ _ h h'⟩

/-- Go `sort.Strings`: any sorted permutation, modelled by insertion sort. -/
def sortStrings (l : List String) : List String :=
  List.insertionSort strLe l

/-- Lowercased name key of the result sort, modelling
`strings.ToLower(results[i].Name)` (ASCII case folding, the range the
handler names exercise). -/
def lowerName (p : PackageVersion) : List Char :=
  p.name.data.map Char.toLower

/-- Result ordering used by the aggregation step of npm, Python, Go, Rust and
Swift handlers: ascending by lowercased `name`. -/
def pvLe (a b : PackageVersion) : Prop :=
  listLeChars (lowerName a) (lowerName b) = true

instance : DecidableRel pvLe := fun a b =>
  inferInstanceAs (Decidable (listLeChars (lowerName a) (lowerName b) = true))

instance : IsTotal PackageVersion pvLe :=
  ⟨fun a b => listLeChars_total (lowerName a) (lowerName b)⟩

instance : IsTrans PackageVersion pvLe :=
  ⟨fun _ _ _ h h' => listLeChars_trans _ _ _ h h'⟩

/-- The `sort.Slice(results, less-by-lowercased-name)` step shared by the npm,
Python, Go, Rust and Swift handlers: a permutation of the input sorted by
lowercased `name` (Go's sort is unstable, so any sorted permutation is a
faithful model). -/
def sortByLowerName (l : List PackageVersion) : List PackageVersion :=
  List.insertionSort pvLe l

/-! ## Caches

`internal/cache.Cache` (the TTL cache created by `NewPackageVersionServer`)
and the `sync.Map` shared cache actually handed to every handler.  Time is an
abstract instant counter (Go nanoseconds); `time.Since t` at instant `now` is
`now - t`. -/

/-- `cache.Cache`: value map, insertion-time map and a fixed TTL.  Go maps
become association lists with first-binding lookup; map assignment is
modelled by a shadowing cons. -/
structure Cache (α : Type) where
  data : List (String × α)
  times : List (String × Nat)
  ttl : Nat

/-- `cache.NewCache(ttl)`. -/
def Cache.new (α : Type) (ttl : Nat) : Cache α := ⟨[], [], ttl⟩

/-- `cache.Cache.Get`: return the stored value unless absent or older than
TTL (`time.Since(c.times[key]) > c.ttl` reads the Go zero time, instant 0,
for a missing timestamp). -/
def Cache.get (c : Cache α) (now : Nat) (key : String) : Option α :=
  match List.lookup key c.data with
  | none => none
  | some v =>
    let t := (List.lookup key c.times).getD 0
    if now - t > c.ttl then none else some v

/-- `cache.Cache.Set`: store the value and stamp the insertion instant. -/
def Cache.set (c : Cache α) (key : String) (v : α) (now : Nat) : Cache α :=
  ⟨(key, v) :: c.data, (key, now) :: c.times, c.ttl⟩

/-- The handlers' shared `sync.Map`, instrumented with the insertion instant
of each entry.  The instant is never read by `Load` — the structure holds no
TTL logic in the source — it only lets time-related claims be stated. -/
def SyncMap (α : Type) := List (String × α × Nat)

/-- `sync.Map.Store` at instant `now`. -/
def syncStore (m : SyncMap α) (key : String) (v : α) (now : Nat) : SyncMap α :=
  (key, v, now) :: m

/-- `sync.Map.Load`: pure key lookup; the insertion instant is ignored
because the source performs no freshness check on this cache. -/
def syncLoad (m : SyncMap α) (key : String) : Option α :=
  match m with
  | [] => none
  | (k, v, _) :: rest => if k = key then some v else syncLoad rest key

/-- `CacheTTL` from `pkg/server/server.go`: 12 hours, in nanoseconds. -/
def CacheTTL : Nat := 12 * 60 * 60 * 1000000000

/-! ## npm handler (`internal/handlers/npm.go`) -/

/-- The two fields of the registry response that
`NpmHandler.GetLatestVersion` reads: the `dist-tags` map and the key set of
the `versions` map (the Go code only ever ranges over the keys).  The key
list stands for one iteration order of the Go map. -/
structure NpmPackageInfo where
  distTags : List (String × String)
  versions : List String
deriving Repr, DecidableEq

/-- `NpmHandler.getPackageInfo`: consult the shared `sync.Map` under key
`npm:<name>` and return the cached info with no freshness check; on a miss,
fetch (the oracle stands for the HTTP GET plus JSON decode) and store the
result at the current instant. -/
def npmGetPackageInfo (cache : SyncMap NpmPackageInfo)
    (fetch : String → Except String NpmPackageInfo) (now : Nat)
    (name : String) : Except String (NpmPackageInfo × SyncMap NpmPackageInfo) :=
  match syncLoad cache ("npm:" ++ name) with
  | some info => .ok (info, cache)
  | none =>
    match fetch name with
    | .error e => .error ("failed to fetch npm package info: " ++ e)
    | .ok info => .ok (info, syncStore cache ("npm:" ++ name) info now)

/-- Latest-version selection of `NpmHandler.GetLatestVersion`: `dist-tags`
`latest` when present, otherwise the last element of the sorted `versions`
key list (unchanged when that list is empty). -/
def npmChooseLatest (info : NpmPackageInfo) : String :=
  let latest := (List.lookup "latest" info.distTags).getD ""
  if latest = "" then
    let sorted := sortStrings info.versions
    if sorted.isEmpty then latest else sorted.getLastD ""
  else latest

/-- Major-version constraint application of `NpmHandler.GetLatestVersion`:
when the package has a `majorVersion` constraint, the chosen latest parses,
and its major exceeds the target, keep only the versions parsing to the
target major, sort them, and take the last when any exist. -/
def npmApplyConstraint (cs : VersionConstraints) (name : String)
    (info : NpmPackageInfo) (latest : String) : String :=
  match List.lookup name cs with
  | some c =>
    match c.majorVersion with
    | some target =>
      match ParseVersion latest with
      | some (major, _, _) =>
        if target < major then
          let matched := info.versions.filter (fun v =>
            match ParseVersion v with
            | some (m, _, _) => m == target
            | none => false)
          let sorted := sortStrings matched
          if sorted.isEmpty then latest else sorted.getLastD ""
        else latest
      | none => latest
    | none => latest
  | none => latest

/-- Per-dependency body of the loop in `NpmHandler.GetLatestVersion`. -/
def npmProcessDep (cs : VersionConstraints)
    (fetch : String → Except String NpmPackageInfo)
    (name ver : String) : PackageVersion :=
  if constraintExcludes cs name then
    ⟨name, none, "", "", true, "Package excluded by constraints"⟩
  else
    let currentVersion := CleanVersion ver
    match fetch name with
    | .error e =>
      ⟨name, some currentVersion, "unknown", "npm", true,
        "Failed to fetch package info: " ++ e⟩
    | .ok info =>
      ⟨name, some currentVersion,
        npmApplyConstraint cs name info (npmChooseLatest info), "npm", false, ""⟩

/-- `NpmHandler.GetLatestVersion` after argument decoding: one descriptor per
dependency, then the sort by lowercased name.  The dependency map is
modelled as an association list in one iteration order; the fetch oracle
subsumes `getPackageInfo` (cache plus HTTP). -/
def npmGetLatestVersion (deps : List (String × String))
    (cs : VersionConstraints)
    (fetch : String → Except String NpmPackageInfo) : List PackageVersion :=
  sortByLowerName (deps.map (fun p => npmProcessDep cs fetch p.1 p.2))

/-! ## Composer handler (`internal/handlers/composer.go`) -/

/-- Go `strings.TrimLeft(v, "^~>=<!")` used on the caller's version. -/
def composerCleanCurrent (v : String) : String :=
  (v.data.dropWhile (fun c =>
    c = '^' ∨ c = '~' ∨ c = '>' ∨ c = '=' ∨ c = '<' ∨ c = '!')).asString

/-- Per-dependency body of the loop in `ComposerHandler.GetLatestVersion`:
constraint exclusion, then the `<vendor>/<name>` shape check, then the
Packagist fetch (`fetchLatestVersion`, abstracted as an oracle keyed by
vendor and package). -/
def composerProcessDep (cs : VersionConstraints)
    (fetch : String → String → Except String String)
    (pkg ver : String) : PackageVersion :=
  if constraintExcludes cs pkg then
    ⟨pkg, none, "", "", true, "Package excluded by constraints"⟩
  else
    let parts := pkg.data.splitOn '/'
    if parts.length ≠ 2 then
      ⟨pkg, none, "", "", true, "Invalid package name format"⟩
    else
      match fetch (parts.getD 0 []).asString (parts.getD 1 []).asString with
      | .error e =>
        ⟨pkg, none, "", "", true, "Failed to fetch version info: " ++ e⟩
      | .ok latest =>
        ⟨pkg, some (composerCleanCurrent ver), latest, "packagist", false, ""⟩

/-- `ComposerHandler.GetLatestVersion` after argument decoding: one
descriptor per dependency, in map-iteration order — the source contains no
sorting step for this handler. -/
def composerGetLatestVersion (deps : List (String × String))
    (cs : VersionConstraints)
    (fetch : String → String → Except String String) : List PackageVersion :=
  deps.map (fun p => composerProcessDep cs fetch p.1 p.2)

/-! ## Python requirements handler (`PythonHandler` in the snapshot) -/

/-- Character class `[a-zA-Z0-9_.-]` of the requirement pattern. -/
def isPyNameChar (c : Char) : Bool :=
  c.isAlpha ∨ c.isDigit ∨ c = '_' ∨ c = '.' ∨ c = '-'

/-- Leading operator class `[<>=!~^]` of the requirement pattern. -/
def isOpChar (c : Char) : Bool :=
  c = '<' ∨ c = '>' ∨ c = '=' ∨ c = '!' ∨ c = '~' ∨ c = '^'

/-- `parseRequirement`: full match of
`^([a-zA-Z0-9_.-]+)(?:\s*([<>=!~^].*)?)?$` — a non-empty greedy run of name
characters, optional whitespace, then an optional version constraint that
starts with an operator character and cannot span a newline (`.` excludes
newlines and `$` anchors the end of the text).  `none` models the
`invalid requirement format` error; the version group is trimmed as in the
source. -/
def pythonParseRequirement (req : List Char) : Option (String × String) :=
  let name := req.takeWhile isPyNameChar
  if name.isEmpty then none
  else
    let rest := (req.drop name.length).dropWhile goSpace
    match rest with
    | [] => some (name.asString, "")
    | c :: _ =>
      if isOpChar c ∧ ¬ rest.contains '\n' then
        some (name.asString, (trimGoL rest).asString)
      else none

/-- Per-line body of `GetLatestVersionFromRequirements`: trim, drop blanks
and `#` comments (`none`, the only case producing no descriptor), then parse
and fetch (the oracle returns `info.version` of the PyPI response). -/
def pythonProcessLine (fetch : String → Except String String)
    (line : String) : Option PackageVersion :=
  let req := trimGoL line.data
  if req = [] ∨ req.head? = some '#' then none
  else some (
    match pythonParseRequirement req with
    | none =>
      ⟨req.asString, none, "", "", true,
        "Failed to parse requirement: invalid requirement format: " ++
          req.asString⟩
    | some (name, ver) =>
      let currentVersion := CleanVersion ver
      match fetch name with
      | .error e =>
        ⟨name, some currentVersion, "unknown", "pypi", true,
          "Failed to fetch package info: " ++ e⟩
      | .ok latest =>
        ⟨name, some currentVersion, latest, "pypi", false, ""⟩)

/-- `PythonHandler.GetLatestVersionFromRequirements` after argument
decoding: one descriptor per non-blank, non-comment line, then the sort by
lowercased name. -/
def pythonGetLatestVersion (lines : List String)
    (fetch : String → Except String String) : List PackageVersion :=
  sortByLowerName (lines.filterMap (pythonProcessLine fetch))

/-! ## Go modules handler (`GoHandler` in the snapshot) -/

/-- A `require` entry of the decoded `go.mod` argument. -/
structure GoRequire where
  path : String
  version : String
deriving Repr, DecidableEq

/-- A `replace` entry of the decoded `go.mod` argument. -/
structure GoReplace where
  old : String
  new : String
  version : String
deriving Repr, DecidableEq

/-- Per-require body of the loop in `GoHandler.GetLatestVersion`: the first
`replace` entry whose `old` equals the path wins and short-circuits the
fetch; otherwise `getLatestVersion` (proxy `@latest`, abstracted as an
oracle) supplies the latest version. -/
def goProcessReq (replaces : List GoReplace)
    (fetch : String → Except String String) (req : GoRequire) : PackageVersion :=
  match replaces.find? (fun r => r.old == req.path) with
  | some rep =>
    ⟨req.path, some req.version,
      "replaced by " ++ rep.new ++ "@" ++ rep.version, "go", true,
      "Module is replaced"⟩
  | none =>
    match fetch req.path with
    | .error e =>
      ⟨req.path, some req.version, "unknown", "go", true,
        "Failed to fetch module info: " ++ e⟩
    | .ok latest =>
      ⟨req.path, some req.version, latest, "go", false, ""⟩

/-- `GoHandler.GetLatestVersion` after argument decoding: one descriptor per
`require` entry, then the sort by lowercased name. -/
def goGetLatestVersion (requires : List GoRequire)
    (replaces : List GoReplace)
    (fetch : String → Except String String) : List PackageVersion :=
  sortByLowerName (requires.map (goProcessReq replaces fetch))

/-! ## Rust handler (`RustHandler` in the snapshot) -/

/-- A value of the `dependencies` map in the Rust request: a version string,
an object with an optional `version` field, or any other JSON value. -/
inductive RustDepVal where
  | str (v : String)
  | obj (version : Option String)
  | other
deriving Repr, DecidableEq

/-- Map-form dependency decoding of `RustHandler.GetLatestVersion`: string
values and object values are kept (an object without a `version` string
yields the empty version); any other value type is dropped without a
descriptor. -/
def rustParseMapDeps (deps : List (String × RustDepVal)) :
    List (String × String) :=
  deps.filterMap (fun p =>
    match p.2 with
    | .str v => some (p.1, v)
    | .obj ov => some (p.1, ov.getD "")
    | .other => none)

/-- Array-form dependency decoding of `RustHandler.GetLatestVersion`: each
element needs a `name` string (elements without one are dropped without a
descriptor); `version` defaults to empty. -/
def rustParseArrDeps (deps : List (Option String × Option String)) :
    List (String × String) :=
  deps.filterMap (fun p => p.1.map (fun n => (n, (p.2).getD "")))

/-- Per-dependency body of the loop in `RustHandler.GetLatestVersion`; the
oracle stands for `getLatestVersion` (crates.io fetch plus stable-version
selection). -/
def rustProcessDep (fetch : String → Except String String)
    (name ver : String) : PackageVersion :=
  match fetch name with
  | .error e =>
    ⟨name, some ver, "unknown", "crates.io", true,
      "Failed to fetch crate info: " ++ e⟩
  | .ok latest =>
    ⟨name, some ver, latest, "crates.io", false, ""⟩

/-- Aggregation step of `RustHandler.GetLatestVersion` over already-decoded
dependencies: one descriptor per decoded dependency, then the sort by
lowercased name. -/
def rustGetLatestVersion (deps : List (String × String))
    (fetch : String → Except String String) : List PackageVersion :=
  sortByLowerName (deps.map (fun p => rustProcessDep fetch p.1 p.2))

/-! ## Swift handler (`internal/handlers/swift.go`) -/

/-- Decoded Swift dependency (`SwiftDependency`). -/
structure SwiftDependency where
  url : String
  version : String
  requirement : String
deriving Repr, DecidableEq

/-- A release of the GitHub releases API, as read by the Swift handler. -/
structure GitHubRelease where
  tagName : String
  draft : Bool
  prerelease : Bool
deriving Repr, DecidableEq

/-- Dependency decoding of `SwiftHandler.GetLatestVersion`: each element
needs a `url` string (elements without one are dropped without a
descriptor); `version` and `requirement` default to empty. -/
def swiftParseDeps
    (deps : List (Option String × Option String × Option String)) :
    List SwiftDependency :=
  deps.filterMap (fun p =>
    p.1.map (fun url => ⟨url, p.2.1.getD "", p.2.2.getD ""⟩))

/-- Release scan of `SwiftHandler.getLatestVersion`: drafts and prereleases
are skipped, the leading `v` is stripped, and a candidate replaces the
accumulator only when `CompareVersions` succeeds and returns a positive
result (comparison failures are skipped). -/
def swiftLatestFromReleases (releases : List GitHubRelease) : String :=
  releases.foldl (fun latest r =>
    if r.draft ∨ r.prerelease then latest
    else
      let version := (dropPfxL ['v'] r.tagName.data).asString
      if latest = "" then version
      else
        match CompareVersions version latest with
        | none => latest
        | some c => if 0 < c then version else latest) ""

/-- Tag-list fallback scan of `SwiftHandler.getLatestVersion` (same
comparison loop over tag names, without draft or prerelease filtering). -/
def swiftLatestFromTags (tags : List String) : String :=
  tags.foldl (fun latest t =>
    let version := (dropPfxL ['v'] t.data).asString
    if latest = "" then version
    else
      match CompareVersions version latest with
      | none => latest
      | some c => if 0 < c then version else latest) ""

/-- `SwiftHandler.getLatestVersion` for a package URL, on a run whose shared
cache holds no entry for the URL: GitHub-only check, URL shape check
(`strings.Split(url, "/")` needs at least five segments), release scan via
the releases oracle, tag fallback via the tags oracle when no release
qualifies, and an error when both come up empty.  The oracles are keyed by
the extracted owner and repo. -/
def swiftGetLatest
    (fetchReleases : String → String → Except String (List GitHubRelease))
    (fetchTags : String → String → Except String (List String))
    (packageURL : String) : Except String String :=
  if ¬ containsL "github.com".data packageURL.data then
    .error ("only GitHub URLs are supported: " ++ packageURL)
  else
    let parts := packageURL.data.splitOn '/'
    if parts.length < 5 then
      .error ("invalid GitHub URL format: " ++ packageURL)
    else
      let owner := (parts.getD 3 []).asString
      let repo := (parts.getD 4 []).asString
      match fetchReleases owner repo with
      | .error e => .error ("failed to fetch Swift package releases: " ++ e)
      | .ok releases =>
        let latest := swiftLatestFromReleases releases
        if latest = "" then
          match fetchTags owner repo with
          | .error e => .error ("failed to fetch Swift package tags: " ++ e)
          | .ok tags =>
            let latest2 := swiftLatestFromTags tags
            if latest2 = "" then
              .error ("no releases or tags found for: " ++ packageURL)
            else .ok latest2
        else .ok latest

/-- Per-dependency body of the loop in `SwiftHandler.GetLatestVersion`:
constraint exclusion, the version lookup, then the major-version constraint
branch, which the source resolves by synthesising the literal string
`<major>.0.0` (its comment defers fetching the real versions of that major
to `a real implementation`). -/
def swiftProcessDep (cs : VersionConstraints)
    (fetchReleases : String → String → Except String (List GitHubRelease))
    (fetchTags : String → String → Except String (List String))
    (dep : SwiftDependency) : PackageVersion :=
  if constraintExcludes cs dep.url then
    ⟨dep.url, none, "", "", true, "Package excluded by constraints"⟩
  else
    match swiftGetLatest fetchReleases fetchTags dep.url with
    | .error e =>
      ⟨dep.url, some dep.version, "unknown", "swift", true,
        "Failed to fetch package info: " ++ e⟩
    | .ok latest =>
      let latest2 :=
        match List.lookup dep.url cs with
        | some c =>
          match c.majorVersion with
          | some target =>
            match ParseVersion latest with
            | some (major, _, _) =>
              if target < major then Nat.repr target ++ ".0.0" else latest
            | none => latest
          | none => latest
        | none => latest
      ⟨dep.url, some dep.version, latest2, "swift", false, ""⟩

/-- `SwiftHandler.GetLatestVersion` over already-decoded dependencies: one
descriptor per decoded dependency, then the sort by lowercased name. -/
def swiftGetLatestVersion (deps : List SwiftDependency)
    (cs : VersionConstraints)
    (fetchReleases : String → String → Except String (List GitHubRelease))
    (fetchTags : String → String → Except String (List String)) :
    List PackageVersion :=
  sortByLowerName (deps.map (swiftProcessDep cs fetchReleases fetchTags))

/-! ## GitHub Actions handler (`internal/handlers/github_actions.go`) -/

/-- Result descriptor of the GitHub Actions handler, with the fields the
snapshot's struct carries. -/
structure GitHubActionVersion where
  owner : String
  repo : String
  currentVersion : Option String
  latestVersion : String
  publishedAt : Option String
  url : Option String
deriving Repr, DecidableEq

/-- Action decoding of `GitHubActionsHandler.GetLatestVersion`: each element
needs both an `owner` string and a `repo` string (elements missing either
are dropped without a descriptor); `currentVersion` is optional. -/
def ghaParseActions
    (raw : List (Option String × Option String × Option String)) :
    List (String × String × Option String) :=
  raw.filterMap (fun p =>
    match p.1, p.2.1 with
    | some owner, some repo => some (owner, repo, p.2.2)
    | _, _ => none)

/-- Per-action body of the loop in
`GitHubActionsHandler.GetLatestVersion`; the oracle stands for
`getLatestVersion` (releases-then-tags fetch) and yields the tag name,
published date and URL.  Fetch failures produce a `latestVersion` of
`unknown` with no skip marker — the struct has none. -/
def ghaProcessAction (includeDetails : Bool)
    (fetch : String → String → Except String (String × String × String))
    (a : String × String × Option String) : GitHubActionVersion :=
  match fetch a.1 a.2.1 with
  | .error _ => ⟨a.1, a.2.1, a.2.2, "unknown", none, none⟩
  | .ok info =>
    if includeDetails then
      ⟨a.1, a.2.1, a.2.2, info.1, some info.2.1, some info.2.2⟩
    else
      ⟨a.1, a.2.1, a.2.2, info.1, none, none⟩

/-- Lowercased owner key of the GitHub Actions result sort. -/
def lowerOwner (a : GitHubActionVersion) : List Char :=
  a.owner.data.map Char.toLower

/-- Lowercased repo key of the GitHub Actions result sort. -/
def lowerRepo (a : GitHubActionVersion) : List Char :=
  a.repo.data.map Char.toLower

/-- Result ordering of the GitHub Actions handler: lowercased owner, then
lowercased repo (the non-strict total preorder whose strict part is the
`sort.Slice` comparator of the source). -/
def ghaLe (a b : GitHubActionVersion) : Prop :=
  (if lowerOwner a = lowerOwner b then listLeChars (lowerRepo a) (lowerRepo b)
   else listLeChars (lowerOwner a) (lowerOwner b)) = true

instance : DecidableRel ghaLe := fun _ _ =>
  inferInstanceAs (Decidable (_ = true))

instance : IsTotal GitHubActionVersion ghaLe := by
  constructor
  intro a b
  unfold ghaLe
  by_cases h : lowerOwner a = lowerOwner b
  · rw [if_pos h, if_pos h.symm]
    exact listLeChars_total _ _
  · rw [if_neg h, if_neg (Ne.symm h)]
    exact listLeChars_total _ _

instance : IsTrans GitHubActionVersion ghaLe := by
  constructor
  intro a b c hab hbc
  unfold ghaLe at hab hbc ⊢
  by_cases h1 : lowerOwner a = lowerOwner b
  · by_cases h2 : lowerOwner b = lowerOwner c
    · rw [if_pos h1] at hab
      rw [if_pos h2] at hbc
      rw [if_pos (h1.trans h2)]
      exact listLeChars_trans _ _ _ hab hbc
    · rw [if_neg (h1 ▸ h2)]
      rw [if_neg h2] at hbc
      exact h1 ▸ hbc
  · by_cases h2 : lowerOwner b = lowerOwner c
    · rw [if_neg (h2 ▸ h1)]
      rw [if_neg h1] at hab
      exact h2 ▸ hab
    · rw [if_neg h1] at hab
      rw [if_neg h2] at hbc
      by_cases h3 : lowerOwner a = lowerOwner c
      · exact absurd (listLeChars_antisymm _ _ hbc (h3 ▸ hab)) h2
      · rw [if_neg h3]
        exact listLeChars_trans _ _ _ hab hbc

/-- `GitHubActionsHandler.GetLatestVersion` over already-decoded actions:
one descriptor per decoded action, then the sort by lowercased owner and
repo. -/
def ghaGetLatestVersion (actions : List (String × String × Option String))
    (includeDetails : Bool)
    (fetch : String → String → Except String (String × String × String)) :
    List GitHubActionVersion :=
  List.insertionSort ghaLe (actions.map (ghaProcessAction includeDetails fetch))

/-! ## Docker handler (`internal/handlers/docker.go`) -/

/-- `DockerImageVersion` as constructed by the Docker handler. -/
structure DockerImageVersion where
  name : String
  tag : String
  registry : String
  digest : Option String
  created : Option String
  size : Option String
deriving Repr, DecidableEq

/-- Pattern scan inside `DockerHandler.filterTags`: a tag matches when some
pattern compiles (the oracle models `regexp.Compile`, `none` standing for an
invalid pattern, which the source logs and skips) and its automaton accepts
the tag. -/
def dockerMatchOk (compile : String → Option (String → Bool))
    (filters : List String) (tag : String) : Bool :=
  filters.any (fun p =>
    match compile p with
    | some re => re tag
    | none => false)

/-- The accumulation loop of `DockerHandler.filterTags`: append each kept
tag and stop as soon as the accumulated length reaches `limit` — the length
test runs after the append, so a non-positive `limit` still lets the first
kept tag through. -/
def dockerFilterLoop (keep : DockerImageVersion → Bool) (limit : Int) :
    List DockerImageVersion → List DockerImageVersion → List DockerImageVersion
  | acc, [] => acc.reverse
  | acc, t :: ts =>
    if keep t then
      let acc2 := t :: acc
      if limit ≤ (acc2.length : Int) then acc2.reverse
      else dockerFilterLoop keep limit acc2 ts
    else dockerFilterLoop keep limit acc ts

/-- `DockerHandler.filterTags`: identity when there are no patterns and the
limit already covers the list, otherwise the accumulation loop, keeping
every tag when no patterns were supplied. -/
def dockerFilterTags (compile : String → Option (String → Bool))
    (tags : List DockerImageVersion) (limit : Int)
    (filters : List String) : List DockerImageVersion :=
  if filters.isEmpty ∧ (tags.length : Int) ≤ limit then tags
  else
    dockerFilterLoop
      (fun t => if filters.isEmpty then true else dockerMatchOk compile filters t.tag)
      limit [] tags

/-- `DockerHandler.getGHCRTags`: cache probe under `ghcr:<image>` (the key
uses the image as supplied), `ghcr.io/` prefix normalisation, the
two-segment shape check on the de-prefixed path, fetch of the tag list
keyed by owner and repo, conversion to descriptors, cache store and
filtering.  A failed shape check aborts the whole call with an error — no
skipped descriptor is produced. -/
def getGHCRTags (cache : SyncMap (List DockerImageVersion)) (now : Nat)
    (fetch : String → String → Except String (List String))
    (compile : String → Option (String → Bool))
    (image : String) (limit : Int) (filters : List String) :
    Except String (List DockerImageVersion × SyncMap (List DockerImageVersion)) :=
  match syncLoad cache ("ghcr:" ++ image) with
  | some tags => .ok (dockerFilterTags compile tags limit filters, cache)
  | none =>
    let image2 :=
      if hasPfxL "ghcr.io/".data image.data then image else "ghcr.io/" ++ image
    let parts := (dropPfxL "ghcr.io/".data image2.data).splitOn '/'
    if parts.length < 2 then
      .error ("invalid GHCR image format: " ++ image2)
    else
      let owner := (parts.getD 0 []).asString
      let repo := (parts.getD 1 []).asString
      match fetch owner repo with
      | .error e => .error ("failed to fetch GHCR tags: " ++ e)
      | .ok tagNames =>
        let tags := tagNames.map (fun t =>
          (⟨image2, t, "ghcr", none, none, none⟩ : DockerImageVersion))
        .ok (dockerFilterTags compile tags limit filters,
          syncStore cache ("ghcr:" ++ image) tags now)

/-! ## Tool catalogue (`pkg/server/server.go` and `pkg/server/composer.go`) -/

/-- Tool names added by `registerNpmTool`. -/
def registerNpmToolNames : List String := ["check_npm_versions"]

/-- Tool names added by `registerPythonTools`. -/
def registerPythonToolNames : List String :=
  ["check_python_versions", "check_pyproject_versions"]

/-- Tool names added by `registerJavaTools`. -/
def registerJavaToolNames : List String :=
  ["check_maven_versions", "check_gradle_versions"]

/-- Tool names added by `registerGoTool`. -/
def registerGoToolNames : List String := ["check_go_versions"]

/-- Tool names added by `registerRustTool`. -/
def registerRustToolNames : List String := ["check_rust_versions"]

/-- Tool names added by `registerDartTool`. -/
def registerDartToolNames : List String := ["check_dart_versions"]

/-- Tool names added by `registerBedrockTools`. -/
def registerBedrockToolNames : List String :=
  ["check_bedrock_models", "get_latest_bedrock_model"]

/-- Tool names added by `registerDockerTool`. -/
def registerDockerToolNames : List String := ["check_docker_tags"]

/-- Tool names added by `registerSwiftTool`. -/
def registerSwiftToolNames : List String := ["check_swift_versions"]

/-- Tool names added by `registerGitHubActionsTool`. -/
def registerGitHubActionsToolNames : List String := ["check_github_actions"]

/-- Tool names that `registerComposerTool` (defined in
`pkg/server/composer.go`) would add were it invoked. -/
def registerComposerToolNames : List String := ["check_composer_versions"]

/-- The tool catalogue assembled by `PackageVersionServer.Initialize`, in
registration order: the register calls it makes are npm, Python, Java, Go,
Rust, Dart, Bedrock, Docker, Swift and GitHub Actions — `Initialize`
contains no call to `registerComposerTool`. -/
def initializeToolNames : List String :=
  registerNpmToolNames ++ registerPythonToolNames ++ registerJavaToolNames ++
    registerGoToolNames ++ registerRustToolNames ++ registerDartToolNames ++
    registerBedrockToolNames ++ registerDockerToolNames ++
    registerSwiftToolNames ++ registerGitHubActionsToolNames

/-- The skip-field relationship a result descriptor of the npm, Composer,
Python and Go resolvers satisfies: `skipped` holds exactly when `skipReason`
is non-empty, and a skipped descriptor carries `unknown`, the empty string,
or a `replaced by` sentinel as its latest version — never a resolved
version. -/
def skipInvariant (r : PackageVersion) : Prop :=
  (r.skipped = true ↔ r.skipReason ≠ "") ∧
    (r.skipped = true →
      r.latestVersion = "unknown" ∨ r.latestVersion = "" ∨
        hasPfxL "replaced by ".data r.latestVersion.data = true)

/-! ## General lemmas about the modelled sorts -/

/-- In a sorted list the last element is maximal. -/
theorem sorted_getLast_max {α : Type} {r : α → α → Prop} :
    ∀ (l : List α), l.Sorted r → ∀ (x : α) (hx : x ∈ l),
      x = l.getLast (List.ne_nil_of_mem hx) ∨
        r x (l.getLast (List.ne_nil_of_mem hx)) := by
  intro l
  induction l with
  | nil => intro _ x hx; cases hx
  | cons a t ih =>
    intro hs x hx
    cases t with
    | nil =>
      rcases List.mem_singleton.mp hx with rfl
      exact Or.inl rfl
    | cons b t' =>
      have hs' : (b :: t').Sorted r := (List.sorted_cons.mp hs).2
      have hrel : ∀ y ∈ b :: t', r a y := (List.sorted_cons.mp hs).1
      have hlast : (a :: b :: t').getLast (by simp) =
          (b :: t').getLast (by simp) := by
        simp [List.getLast_cons]
      rcases List.mem_cons.mp hx with rfl | hxt
      · right
        rw [hlast]
        exact hrel _ (List.getLast_mem _)
      · have := ih hs' x hxt
        rcases this with h | h
        · left; rw [hlast]; exact h
        · right; rw [hlast]; exact h

/-- Membership is preserved by the modelled sorts. -/
theorem mem_sortByLowerName {x : PackageVersion} {l : List PackageVersion} :
    x ∈ sortByLowerName l ↔ x ∈ l :=
  (List.perm_insertionSort pvLe l).mem_iff

/-- Length is preserved by the modelled sorts. -/
theorem length_sortByLowerName (l : List PackageVersion) :
    (sortByLowerName l).length = l.length :=
  (List.perm_insertionSort pvLe l).length_eq

/-- The aggregation sort really sorts by lowercased name. -/
theorem sortByLowerName_sorted (l : List PackageVersion) :
    (sortByLowerName l).Sorted pvLe :=
  List.sorted_insertionSort pvLe l

theorem mem_sortStrings {x : String} {l : List String} :
    x ∈ sortStrings l ↔ x ∈ l :=
  (List.perm_insertionSort strLe l).mem_iff

theorem sortStrings_sorted (l : List String) :
    (sortStrings l).Sorted strLe :=
  List.sorted_insertionSort strLe l

theorem length_sortStrings (l : List String) :
    (sortStrings l).length = l.length :=
  (List.perm_insertionSort strLe l).length_eq

theorem listLeChars_refl : ∀ a, listLeChars a a = true := by
  intro a
  induction a with
  | nil => rfl
  | cons x xs ih => simp [listLeChars, ih]

theorem strLe_refl (a : String) : strLe a a :=
  listLeChars_refl a.data

theorem string_append_ne_empty (s e : String) (hs : s.data ≠ []) :
    s ++ e ≠ "" := by
  intro h
  have : (s ++ e).data = [] := by rw [h]
  rw [String.data_append] at this
  exact hs (List.append_eq_nil.mp this).1

theorem getLastD_of_ne_nil {α : Type} :
    ∀ (l : List α) (h : l ≠ []) (d : α), l.getLastD d = l.getLast h := by
  intro l
  induction l with
  | nil => intro h; exact absurd rfl h
  | cons x xs ih =>
    intro _ d
    cases xs with
    | nil => rfl
    | cons y ys =>
      rw [List.getLastD_cons, List.getLast_cons (by simp)]
      exact ih (by simp) d

theorem length_filterMap_eq_length_filter {α β : Type} (f : α → Option β) :
    ∀ l : List α,
      (l.filterMap f).length = (l.filter (fun a => (f a).isSome)).length := by
  intro l
  induction l with
  | nil => rfl
  | cons x xs ih =>
    by_cases h : (f x).isSome
    · rcases Option.isSome_iff_exists.mp h with ⟨b, hb⟩
      simp [List.filterMap_cons, List.filter_cons, hb, ih]
    · have hnone : f x = none := Option.not_isSome_iff_eq_none.mp h
      simp [List.filterMap_cons, List.filter_cons, hnone, ih]

/-! ## Claim C1 -/

theorem skipInvariant_ok (n : String) (cv : Option String) (lv reg : String) :
    skipInvariant ⟨n, cv, lv, reg, false, ""⟩ :=
  ⟨⟨fun h => absurd h Bool.false_ne_true, fun h => absurd rfl h⟩,
    fun h => absurd h Bool.false_ne_true⟩

theorem skipInvariant_skip (n : String) (cv : Option String)
    (lv reg reason : String) (hreason : reason ≠ "")
    (hlv : lv = "unknown" ∨ lv = "" ∨
      hasPfxL "replaced by ".data lv.data = true) :
    skipInvariant ⟨n, cv, lv, reg, true, reason⟩ :=
  ⟨⟨fun _ => hreason, fun _ => rfl⟩, fun _ => hlv⟩

theorem hasPfxL_append : ∀ (p rest : List Char), hasPfxL p (p ++ rest) = true := by
  intro p
  induction p with
  | nil => intro rest; rfl
  | cons c cs ih => intro rest; simp [hasPfxL, ih]

theorem npmProcessDep_skipInvariant (cs : VersionConstraints)
    (fetch : String → Except String NpmPackageInfo) (name ver : String) :
    skipInvariant (npmProcessDep cs fetch name ver) := by
  unfold npmProcessDep
  split
  · exact skipInvariant_skip _ _ _ _ _ (by decide) (Or.inr (Or.inl rfl))
  · split
    · exact skipInvariant_skip _ _ _ _ _
        (string_append_ne_empty _ _ (by decide)) (Or.inl rfl)
    · exact skipInvariant_ok _ _ _ _

theorem composerProcessDep_skipInvariant (cs : VersionConstraints)
    (fetch : String → String → Except String String) (pkg ver : String) :
    skipInvariant (composerProcessDep cs fetch pkg ver) := by
  unfold composerProcessDep
  split
  · exact skipInvariant_skip _ _ _ _ _ (by decide) (Or.inr (Or.inl rfl))
  · dsimp only
    split
    · exact skipInvariant_skip _ _ _ _ _ (by decide) (Or.inr (Or.inl rfl))
    · split
      · exact skipInvariant_skip _ _ _ _ _
          (string_append_ne_empty _ _ (by decide)) (Or.inr (Or.inl rfl))
      · exact skipInvariant_ok _ _ _ _

theorem pythonProcessLine_skipInvariant (fetch : String → Except String String)
    (line : String) (r : PackageVersion)
    (h : pythonProcessLine fetch line = some r) : skipInvariant r := by
  unfold pythonProcessLine at h
  dsimp only at h
  split at h
  · exact absurd h (by simp)
  · split at h
    · cases Option.some.inj h
      exact skipInvariant_skip _ _ _ _ _
        (string_append_ne_empty _ _ (by decide)) (Or.inr (Or.inl rfl))
    · split at h
      · cases Option.some.inj h
        exact skipInvariant_skip _ _ _ _ _
          (string_append_ne_empty _ _ (by decide)) (Or.inl rfl)
      · cases Option.some.inj h
        exact skipInvariant_ok _ _ _ _

theorem goProcessReq_skipInvariant (replaces : List GoReplace)
    (fetch : String → Except String String) (req : GoRequire) :
    skipInvariant (goProcessReq replaces fetch req) := by
  unfold goProcessReq
  split
  · rename_i rep _
    refine skipInvariant_skip _ _ _ _ _ (by decide) (Or.inr (Or.inr ?_))
    have hdata : ("replaced by " ++ rep.new ++ "@" ++ rep.version).data =
        "replaced by ".data ++ (rep.new.data ++ "@".data ++ rep.version.data) := by
      simp [String.data_append]
    rw [hdata]
    exact hasPfxL_append _ _
  · split
    · exact skipInvariant_skip _ _ _ _ _
        (string_append_ne_empty _ _ (by decide)) (Or.inl rfl)
    · exact skipInvariant_ok _ _ _ _

/-- C1 (corrected): for the npm, Composer, Python-requirements and Go
resolvers, on every input and every fetch outcome, each result descriptor
satisfies `skipped = true ⇔ skipReason ≠ ""`, and a skipped descriptor's
`latestVersion` is never a resolved version: it is `unknown` (fetch
failures of npm, Python and Go), the empty string (constraint exclusions,
Composer name-shape failures, Composer fetch failures and Python parse
failures), or a `replaced by <new>@<ver>` sentinel (Go replace entries). -/
theorem C1_skip_fields (deps : List (String × String)) (cs : VersionConstraints)
    (nf : String → Except String NpmPackageInfo)
    (cf : String → String → Except String String)
    (pf : String → Except String String) (lines : List String)
    (requires : List GoRequire) (replaces : List GoReplace)
    (gf : String → Except String String) :
    (∀ r ∈ npmGetLatestVersion deps cs nf, skipInvariant r) ∧
    (∀ r ∈ composerGetLatestVersion deps cs cf, skipInvariant r) ∧
    (∀ r ∈ pythonGetLatestVersion lines pf, skipInvariant r) ∧
    (∀ r ∈ goGetLatestVersion requires replaces gf, skipInvariant r) := by
  refine ⟨?_, ?_, ?_, ?_⟩
  · intro r hr
    rcases List.mem_map.mp (mem_sortByLowerName.mp hr) with ⟨p, _, rfl⟩
    exact npmProcessDep_skipInvariant cs nf p.1 p.2
  · intro r hr
    rcases List.mem_map.mp hr with ⟨p, _, rfl⟩
    exact composerProcessDep_skipInvariant cs cf p.1 p.2
  · intro r hr
    rcases List.mem_filterMap.mp (mem_sortByLowerName.mp hr) with ⟨line, _, hline⟩
    exact pythonProcessLine_skipInvariant pf line r hline
  · intro r hr
    rcases List.mem_map.mp (mem_sortByLowerName.mp hr) with ⟨req, _, rfl⟩
    exact goProcessReq_skipInvariant replaces gf req

/-- C1 witness: the skip-field relationship at a concrete resolved npm
descriptor. -/
theorem C1_skip_fields_witness :
    skipInvariant
      ⟨"react", some "17.0.2", "18.2.0", "npm", false, ""⟩ := by
  have h := (C1_skip_fields [("react", "^17.0.2")] []
    (fun _ => .ok ⟨[("latest", "18.2.0")], ["17.0.2", "18.2.0"]⟩)
    (fun _ _ => .error "unused") (fun _ => .error "unused") [] [] []
    (fun _ => .error "unused")).1
  exact h ⟨"react", some "17.0.2", "18.2.0", "npm", false, ""⟩ (by decide)

/-- C1 counterexample: a constraint-excluded npm dependency yields a skipped
descriptor whose `latestVersion` is the empty string — not one of the
sentinel values the claim allows (`unknown`, `sdk dependency`,
`special dependency`, `replaced by <path>@<ver>`), which it says are the
only possibilities and are never empty. -/
theorem C1_counterexample :
    npmGetLatestVersion [("react", "^17.0.2")]
        [("react", ⟨none, true⟩)] (fun _ => .error "unreachable") =
      [⟨"react", none, "", "", true, "Package excluded by constraints"⟩] ∧
    "" ∉ (["unknown", "sdk dependency", "special dependency"] : List String) ∧
    hasPfxL "replaced by ".data "".data = false := by
  exact ⟨by decide, by decide, by decide⟩

/-! ## Claim C2 -/

/-- C2 (corrected): the npm, Python-requirements, Go, Rust and Swift
resolvers sort their result lists ascending by lowercased `name`, and the
GitHub Actions resolver sorts by lowercased owner then lowercased repo —
but the Composer resolver returns its results in dependency-iteration
order with no sorting step at all. -/
theorem C2_result_sorting (deps : List (String × String))
    (cs : VersionConstraints)
    (nf : String → Except String NpmPackageInfo) (lines : List String)
    (pf : String → Except String String) (requires : List GoRequire)
    (replaces : List GoReplace) (gf : String → Except String String)
    (rdeps : List (String × String)) (rf : String → Except String String)
    (sdeps : List SwiftDependency)
    (fr : String → String → Except String (List GitHubRelease))
    (ft : String → String → Except String (List String))
    (actions : List (String × String × Option String)) (inc : Bool)
    (af : String → String → Except String (String × String × String))
    (cf : String → String → Except String String) :
    (npmGetLatestVersion deps cs nf).Sorted pvLe ∧
    (pythonGetLatestVersion lines pf).Sorted pvLe ∧
    (goGetLatestVersion requires replaces gf).Sorted pvLe ∧
    (rustGetLatestVersion rdeps rf).Sorted pvLe ∧
    (swiftGetLatestVersion sdeps cs fr ft).Sorted pvLe ∧
    (ghaGetLatestVersion actions inc af).Sorted ghaLe ∧
    composerGetLatestVersion deps cs cf =
      deps.map (fun p => composerProcessDep cs cf p.1 p.2) := by
  exact ⟨sortByLowerName_sorted _, sortByLowerName_sorted _,
    sortByLowerName_sorted _, sortByLowerName_sorted _,
    sortByLowerName_sorted _, List.sorted_insertionSort ghaLe _, rfl⟩

/-- C2 witness: sortedness at concrete inputs — the npm resolver output for
two dependencies given in reverse name order is sorted. -/
theorem C2_result_sorting_witness :
    (npmGetLatestVersion [("zod", "^3.0.0"), ("axios", "^1.0.0")] []
      (fun _ => .error "down")).Sorted pvLe :=
  (C2_result_sorting [("zod", "^3.0.0"), ("axios", "^1.0.0")] []
    (fun _ => .error "down") [] (fun _ => .error "x") [] []
    (fun _ => .error "x") [] (fun _ => .error "x") []
    (fun _ _ => .error "x") (fun _ _ => .error "x") [] false
    (fun _ _ => .error "x") (fun _ _ => .error "x")).1

/-- C2 counterexample: the Composer resolver emits the dependencies
`b` then `a` (both with an invalid name shape, so no fetch occurs) in
iteration order; the resulting list is not sorted by lowercased name. -/
theorem C2_counterexample :
    composerGetLatestVersion [("b", "1.0"), ("a", "1.0")] []
        (fun _ _ => .error "down") =
      [⟨"b", none, "", "", true, "Invalid package name format"⟩,
        ⟨"a", none, "", "", true, "Invalid package name format"⟩] ∧
    ¬ (composerGetLatestVersion [("b", "1.0"), ("a", "1.0")] []
        (fun _ _ => .error "down")).Sorted pvLe := by
  constructor
  · decide
  · intro hs
    have : pvLe ⟨"b", none, "", "", true, "Invalid package name format"⟩
        ⟨"a", none, "", "", true, "Invalid package name format"⟩ := by
      have := List.rel_of_sorted_cons (by
        have h : composerGetLatestVersion [("b", "1.0"), ("a", "1.0")] []
            (fun _ _ => .error "down") =
          [⟨"b", none, "", "", true, "Invalid package name format"⟩,
            ⟨"a", none, "", "", true, "Invalid package name format"⟩] := by decide
        rw [h] at hs
        exact hs)
      exact this _ (by decide)
    revert this
    decide

/-! ## Claim C3 -/

/-- C3 (corrected): the TTL cache `cache.Cache` that
`NewPackageVersionServer` constructs does satisfy the round-trip property —
a `Set` followed by a `Get` returns the value exactly when the elapsed time
is within TTL and misses afterwards — but the cache the handlers actually
consult is the `sync.Map` shared cache, which performs no freshness check:
a stored value is returned by `Load` no matter how long ago it was
inserted, and on such a hit the npm handler returns the cached data without
re-fetching. -/
theorem C3_cache_ttl (α : Type) (c : Cache α) (k : String) (v : α)
    (t now : Nat) (m : SyncMap NpmPackageInfo)
    (fetch : String → Except String NpmPackageInfo) (name : String)
    (info : NpmPackageInfo)
    (hhit : syncLoad m ("npm:" ++ name) = some info) :
    ((c.set k v t).get now k =
      if now - t > c.ttl then none else some v) ∧
    (∀ (m2 : SyncMap NpmPackageInfo) (k2 : String) (v2 : NpmPackageInfo)
      (t2 : Nat), syncLoad (syncStore m2 k2 v2 t2) k2 = some v2) ∧
    npmGetPackageInfo m fetch now name = .ok (info, m) := by
  refine ⟨?_, ?_, ?_⟩
  · show (match List.lookup k ((k, v) :: c.data) with
      | none => none
      | some v =>
        if now - (List.lookup k ((k, t) :: c.times)).getD 0 > c.ttl then none
        else some v) = _
    simp [List.lookup]
  · intro m2 k2 v2 t2
    simp [syncLoad, syncStore]
  · unfold npmGetPackageInfo
    rw [hhit]

/-- C3 witness: concrete instances — a `cache.Cache` entry inserted at
instant 0 misses when read at instant `CacheTTL + 1`, the `sync.Map` store
and load round-trip, and a stale `sync.Map` hit short-circuits the fetch. -/
theorem C3_cache_ttl_witness :
    (((Cache.new NpmPackageInfo CacheTTL).set "npm:left-pad"
        ⟨[("latest", "1.3.0")], ["1.3.0"]⟩ 0).get (CacheTTL + 1)
        "npm:left-pad" = none) ∧
    npmGetPackageInfo [("npm:left-pad", ⟨[("latest", "1.3.0")], ["1.3.0"]⟩, 0)]
        (fun _ => .error "registry down") (CacheTTL + 1) "left-pad" =
      .ok (⟨[("latest", "1.3.0")], ["1.3.0"]⟩,
        [("npm:left-pad", ⟨[("latest", "1.3.0")], ["1.3.0"]⟩, 0)]) := by
  have h := C3_cache_ttl NpmPackageInfo (Cache.new NpmPackageInfo CacheTTL)
    "npm:left-pad" ⟨[("latest", "1.3.0")], ["1.3.0"]⟩ 0 (CacheTTL + 1)
    [("npm:left-pad", ⟨[("latest", "1.3.0")], ["1.3.0"]⟩, 0)]
    (fun _ => .error "registry down") "left-pad"
    ⟨[("latest", "1.3.0")], ["1.3.0"]⟩ (by rfl)
  refine ⟨?_, h.2.2⟩
  rw [h.1, if_pos]
  show CacheTTL + 1 - 0 > (Cache.new NpmPackageInfo CacheTTL).ttl
  have hshow : (Cache.new NpmPackageInfo CacheTTL).ttl = CacheTTL := rfl
  rw [hshow]
  omega

/-- C3 counterexample: an entry of the handlers' shared `sync.Map` cache
inserted at instant 0 and read at instant `CacheTTL + 1` — more than TTL
after insertion — is returned as a hit instead of behaving like a miss: the
npm handler answers from the cache even though the registry fetch would
fail, while a genuine miss at the same instant propagates the fetch
failure. -/
theorem C3_counterexample :
    CacheTTL + 1 - 0 > CacheTTL ∧
    npmGetPackageInfo [("npm:left-pad", ⟨[("latest", "1.3.0")], ["1.3.0"]⟩, 0)]
        (fun _ => .error "registry down") (CacheTTL + 1) "left-pad" =
      .ok (⟨[("latest", "1.3.0")], ["1.3.0"]⟩,
        [("npm:left-pad", ⟨[("latest", "1.3.0")], ["1.3.0"]⟩, 0)]) ∧
    npmGetPackageInfo [] (fun _ => .error "registry down") (CacheTTL + 1)
        "left-pad" =
      .error "failed to fetch npm package info: registry down" := by
  refine ⟨by omega, by rfl, by rfl⟩

/-! ## Claim C4 -/

theorem dockerFilterLoop_mem (keep : DockerImageVersion → Bool) (limit : Int) :
    ∀ (ts acc : List DockerImageVersion) (x : DockerImageVersion),
      x ∈ dockerFilterLoop keep limit acc ts → x ∈ acc ∨ keep x = true := by
  intro ts
  induction ts with
  | nil =>
    intro acc x hx
    simp only [dockerFilterLoop] at hx
    exact Or.inl (List.mem_reverse.mp hx)
  | cons t ts ih =>
    intro acc x hx
    simp only [dockerFilterLoop] at hx
    by_cases hk : keep t
    · rw [if_pos hk] at hx
      by_cases hl : limit ≤ (((t :: acc).length : Nat) : Int)
      · rw [if_pos hl] at hx
        rcases List.mem_cons.mp (List.mem_reverse.mp hx) with rfl | h
        · exact Or.inr hk
        · exact Or.inl h
      · rw [if_neg hl] at hx
        rcases ih (t :: acc) x hx with h | h
        · rcases List.mem_cons.mp h with rfl | h2
          · exact Or.inr hk
          · exact Or.inl h2
        · exact Or.inr h
    · rw [if_neg hk] at hx
      exact ih acc x hx

theorem dockerFilterLoop_length (keep : DockerImageVersion → Bool)
    (limit : Int) :
    ∀ (ts acc : List DockerImageVersion), (acc.length : Int) < limit →
      ((dockerFilterLoop keep limit acc ts).length : Int) ≤ limit := by
  intro ts
  induction ts with
  | nil =>
    intro acc h
    simp only [dockerFilterLoop, List.length_reverse]
    omega
  | cons t ts ih =>
    intro acc h
    simp only [dockerFilterLoop]
    by_cases hk : keep t
    · rw [if_pos hk]
      by_cases hl : limit ≤ (((t :: acc).length : Nat) : Int)
      · rw [if_pos hl]
        simp only [List.length_reverse, List.length_cons]
        simp only [List.length_cons] at hl
        push_cast at hl ⊢
        omega
      · rw [if_neg hl]
        exact ih (t :: acc) (lt_of_not_le hl)
    · rw [if_neg hk]
      exact ih acc h

/-- C4 (corrected): for the docker tag filter, whenever patterns are
supplied every emitted tag matches a successfully compiled pattern, invalid
patterns are skipped rather than failing the request (a non-compiling
pattern added to a non-empty pattern list leaves the output unchanged), and
the output length stays within `limit` whenever `limit ≥ 1` — the bound the
claim states for every limit fails only for `limit ≤ 0`, where the loop
appends the first accepted tag before testing the bound. -/
theorem C4_docker_filter (compile : String → Option (String → Bool))
    (tags : List DockerImageVersion) (limit : Int) (filters : List String) :
    (filters ≠ [] → ∀ t ∈ dockerFilterTags compile tags limit filters,
      ∃ p ∈ filters, ∃ re, compile p = some re ∧ re t.tag = true) ∧
    (1 ≤ limit →
      ((dockerFilterTags compile tags limit filters).length : Int) ≤ limit) ∧
    (∀ p, compile p = none → filters ≠ [] →
      dockerFilterTags compile tags limit (p :: filters) =
        dockerFilterTags compile tags limit filters) := by
  refine ⟨?_, ?_, ?_⟩
  · intro hne t ht
    have hempty : filters.isEmpty = false := by
      cases filters with
      | nil => exact absurd rfl hne
      | cons a l => rfl
    unfold dockerFilterTags at ht
    rw [if_neg (by simp [hempty])] at ht
    rcases dockerFilterLoop_mem _ _ tags [] t ht with h | h
    · cases h
    · rw [hempty] at h
      simp only [Bool.false_eq_true, if_false] at h
      rcases List.any_eq_true.mp h with ⟨p, hp, hmatch⟩
      refine ⟨p, hp, ?_⟩
      cases hc : compile p with
      | none => rw [hc] at hmatch; cases hmatch
      | some re =>
        rw [hc] at hmatch
        exact ⟨re, rfl, hmatch⟩
  · intro hlim
    unfold dockerFilterTags
    by_cases hbr : filters.isEmpty = true ∧ (tags.length : Int) ≤ limit
    · rw [if_pos hbr]
      exact hbr.2
    · rw [if_neg hbr]
      exact dockerFilterLoop_length _ _ tags [] (by simpa using hlim)
  · intro p hp hne
    have hempty : filters.isEmpty = false := by
      cases filters with
      | nil => exact absurd rfl hne
      | cons a l => rfl
    have hkeep :
        (fun (t : DockerImageVersion) => if (p :: filters).isEmpty = true then true
          else dockerMatchOk compile (p :: filters) t.tag) =
        (fun (t : DockerImageVersion) => if filters.isEmpty = true then true
          else dockerMatchOk compile filters t.tag) := by
      funext t
      simp only [List.isEmpty_cons, hempty, Bool.false_eq_true, if_false]
      unfold dockerMatchOk
      simp only [List.any_cons, hp, Bool.false_or]
    unfold dockerFilterTags
    rw [if_neg (by simp), if_neg (by simp [hempty]), hkeep]

/-- C4 witness: at the concrete image tags `1.25.3` and `latest` with
pattern list `^1\.` (modelled by a compiled automaton accepting strings
starting with `1.`), limit 2: the emitted tag matches a pattern, the length
bound holds, and adding a non-compiling pattern changes nothing. -/
theorem C4_docker_filter_witness :
    (∃ p ∈ (["^1\\."] : List String), ∃ re,
      (fun q => if q = "^1\\." then
        some (fun t => hasPfxL ['1', '.'] t.data) else none) p = some re ∧
      re "1.25.3" = true) ∧
    ((dockerFilterTags
      (fun q => if q = "^1\\." then
        some (fun t => hasPfxL ['1', '.'] t.data) else none)
      [⟨"nginx", "1.25.3", "dockerhub", none, none, none⟩,
        ⟨"nginx", "latest", "dockerhub", none, none, none⟩]
      2 ["^1\\."]).length : Int) ≤ 2 ∧
    dockerFilterTags
        (fun q => if q = "^1\\." then
          some (fun t => hasPfxL ['1', '.'] t.data) else none)
        [⟨"nginx", "1.25.3", "dockerhub", none, none, none⟩,
          ⟨"nginx", "latest", "dockerhub", none, none, none⟩]
        2 ["oops(" , "^1\\."] =
      dockerFilterTags
        (fun q => if q = "^1\\." then
          some (fun t => hasPfxL ['1', '.'] t.data) else none)
        [⟨"nginx", "1.25.3", "dockerhub", none, none, none⟩,
          ⟨"nginx", "latest", "dockerhub", none, none, none⟩]
        2 ["^1\\."] := by
  have h := C4_docker_filter
    (fun q => if q = "^1\\." then
      some (fun t => hasPfxL ['1', '.'] t.data) else none)
    [⟨"nginx", "1.25.3", "dockerhub", none, none, none⟩,
      ⟨"nginx", "latest", "dockerhub", none, none, none⟩]
    2 ["^1\\."]
  refine ⟨?_, h.2.1 (by decide), h.2.2 "oops(" (by rfl) (by decide)⟩
  have hmem := h.1 (by decide)
    ⟨"nginx", "1.25.3", "dockerhub", none, none, none⟩ (by decide)
  exact hmem

/-- C4 counterexample: with `limit = 0` (reachable, since the handler takes
`limit` from the arguments without a lower bound) the filter still emits
one tag, so the output length exceeds the limit, contradicting the claim's
unconditional `|output| ≤ limit`. -/
theorem C4_counterexample :
    dockerFilterTags (fun _ => none)
        [⟨"nginx", "1.25.3", "dockerhub", none, none, none⟩] 0 [] =
      [⟨"nginx", "1.25.3", "dockerhub", none, none, none⟩] ∧
    ¬ (((dockerFilterTags (fun _ => none)
        [⟨"nginx", "1.25.3", "dockerhub", none, none, none⟩] 0 []).length : Int)
      ≤ 0) := by
  exact ⟨by decide, by decide⟩

/-! ## Claim C5 -/

/-- C5 (confirmed): when the npm resolver has a `majorVersion` constraint
for a package, the chosen latest parses, and its major exceeds the target,
the descriptor's latest version is taken from the versions map filtered to
the target major — sorted, with the maximum returned (it is a member of the
filtered set and bounds it from above) — and when no version matches, the
originally chosen latest is kept; in both cases the descriptor is not
marked skipped. -/
theorem C5_npm_major_constraint (cs : VersionConstraints)
    (fetch : String → Except String NpmPackageInfo) (name ver : String)
    (c : VersionConstraint) (target : Nat) (info : NpmPackageInfo)
    (matched : List String) (M mi pa : Nat)
    (hc : List.lookup name cs = some c)
    (hexc : c.excludePackage = false)
    (hmaj : c.majorVersion = some target)
    (hfetch : fetch name = .ok info)
    (hparse : ParseVersion (npmChooseLatest info) = some (M, mi, pa))
    (hgt : target < M)
    (hmatched : matched = info.versions.filter (fun v =>
      match ParseVersion v with
      | some (m, _, _) => m == target
      | none => false)) :
    (npmProcessDep cs fetch name ver).skipped = false ∧
    (npmProcessDep cs fetch name ver).registry = "npm" ∧
    (matched = [] →
      (npmProcessDep cs fetch name ver).latestVersion = npmChooseLatest info) ∧
    (matched ≠ [] →
      (npmProcessDep cs fetch name ver).latestVersion ∈ matched ∧
      ∀ v ∈ matched, strLe v (npmProcessDep cs fetch name ver).latestVersion) := by
  have hex : constraintExcludes cs name = false := by
    unfold constraintExcludes
    rw [hc]
    exact hexc
  have hr : npmProcessDep cs fetch name ver =
      ⟨name, some (CleanVersion ver),
        npmApplyConstraint cs name info (npmChooseLatest info),
        "npm", false, ""⟩ := by
    unfold npmProcessDep
    rw [hex]
    simp only [Bool.false_eq_true, if_false, hfetch]
  have happly : npmApplyConstraint cs name info (npmChooseLatest info) =
      if (sortStrings matched).isEmpty then npmChooseLatest info
      else (sortStrings matched).getLastD "" := by
    unfold npmApplyConstraint
    rw [hc]
    dsimp only
    rw [hmaj]
    dsimp only
    rw [hparse]
    dsimp only
    rw [if_pos hgt, ← hmatched]
  rw [hr]
  refine ⟨rfl, rfl, ?_, ?_⟩
  · intro hnil
    show npmApplyConstraint cs name info (npmChooseLatest info) = _
    rw [happly, hnil]
    rfl
  · intro hne
    have hsne : sortStrings matched ≠ [] := by
      intro hcon
      apply hne
      have := length_sortStrings matched
      rw [hcon] at this
      exact List.length_eq_zero.mp this.symm
    have hlast : (sortStrings matched).getLastD "" =
        (sortStrings matched).getLast hsne := getLastD_of_ne_nil _ hsne _
    have hval : npmApplyConstraint cs name info (npmChooseLatest info) =
        (sortStrings matched).getLast hsne := by
      rw [happly, if_neg (by simpa using hsne), hlast]
    constructor
    · show npmApplyConstraint cs name info (npmChooseLatest info) ∈ matched
      rw [hval]
      exact mem_sortStrings.mp (List.getLast_mem hsne)
    · intro v hv
      show strLe v (npmApplyConstraint cs name info (npmChooseLatest info))
      rw [hval]
      have hvs : v ∈ sortStrings matched := mem_sortStrings.mpr hv
      rcases sorted_getLast_max (sortStrings matched)
          (sortStrings_sorted matched) v hvs with h | h
      · rw [h]
        exact strLe_refl _
      · exact h

/-- C5 witness: for `react` pinned to major 17 with registry latest
`18.2.0` and versions `17.0.2`, `17.0.3`, `18.2.0`, the resolver keeps a
non-skipped descriptor whose latest version lies in the constrained-major
set. -/
theorem C5_npm_major_constraint_witness :
    (npmProcessDep [("react", ⟨some 17, false⟩)]
      (fun _ => .ok ⟨[("latest", "18.2.0")], ["17.0.2", "17.0.3", "18.2.0"]⟩)
      "react" "^17.0.2").skipped = false ∧
    (npmProcessDep [("react", ⟨some 17, false⟩)]
      (fun _ => .ok ⟨[("latest", "18.2.0")], ["17.0.2", "17.0.3", "18.2.0"]⟩)
      "react" "^17.0.2").latestVersion ∈
        (["17.0.2", "17.0.3"] : List String) := by
  have h := C5_npm_major_constraint [("react", ⟨some 17, false⟩)]
    (fun _ => .ok ⟨[("latest", "18.2.0")], ["17.0.2", "17.0.3", "18.2.0"]⟩)
    "react" "^17.0.2" ⟨some 17, false⟩ 17
    ⟨[("latest", "18.2.0")], ["17.0.2", "17.0.3", "18.2.0"]⟩
    ["17.0.2", "17.0.3"] 18 2 0
    (by decide) rfl rfl rfl (by decide) (by decide) (by decide)
  exact ⟨h.1, (h.2.2.2 (by decide)).1⟩

/-! ## Claim C6 -/

/-- C6 (corrected): the catalogue `Initialize` registers consists of the
thirteen tools below, in registration order, and `check_composer_versions`
is not among them — `registerComposerTool`, which would register exactly
that name, exists in `pkg/server/composer.go` but `Initialize` never
invokes it, so a protocol call to that name meets the dispatcher's
unknown-tool failure instead of reaching the Composer resolver. -/
theorem C6_tool_catalogue :
    initializeToolNames =
      ["check_npm_versions", "check_python_versions",
        "check_pyproject_versions", "check_maven_versions",
        "check_gradle_versions", "check_go_versions", "check_rust_versions",
        "check_dart_versions", "check_bedrock_models",
        "get_latest_bedrock_model", "check_docker_tags",
        "check_swift_versions", "check_github_actions"] ∧
    "check_composer_versions" ∉ initializeToolNames ∧
    registerComposerToolNames = ["check_composer_versions"] := by
  exact ⟨by decide, by decide, by decide⟩

/-- C6 counterexample: the tool catalogue registered at server
initialisation does not contain a tool named `check_composer_versions`. -/
theorem C6_counterexample :
    "check_composer_versions" ∉ initializeToolNames := by
  decide

/-! ## Claim C7 -/

/-- C7 (corrected): when a `majorVersion` constraint applies to a Swift
dependency and the major of the chosen latest release exceeds it, the
returned `latestVersion` is the literal string `<major>.0.0` synthesised
from the constraint — not the highest qualifying release within that major
(the source comments that fetching and filtering the real versions is left
to `a real implementation`). -/
theorem C7_swift_major_constraint (cs : VersionConstraints)
    (fetchReleases : String → String → Except String (List GitHubRelease))
    (fetchTags : String → String → Except String (List String))
    (dep : SwiftDependency) (c : VersionConstraint) (target : Nat)
    (latest : String) (M mi pa : Nat)
    (hc : List.lookup dep.url cs = some c)
    (hexc : c.excludePackage = false)
    (hmaj : c.majorVersion = some target)
    (hfetch : swiftGetLatest fetchReleases fetchTags dep.url = .ok latest)
    (hparse : ParseVersion latest = some (M, mi, pa))
    (hgt : target < M) :
    swiftProcessDep cs fetchReleases fetchTags dep =
      ⟨dep.url, some dep.version, Nat.repr target ++ ".0.0", "swift",
        false, ""⟩ := by
  have hex : constraintExcludes cs dep.url = false := by
    unfold constraintExcludes
    rw [hc]
    exact hexc
  unfold swiftProcessDep
  rw [hex]
  simp only [Bool.false_eq_true, if_false, hfetch]
  rw [hc]
  dsimp only
  rw [hmaj]
  dsimp only
  rw [hparse]
  dsimp only
  rw [if_pos hgt]

/-- C7 witness: the amended statement applied at a GitHub package with
stable releases `v3.2.1` and `v2.5.0` under a major-2 constraint: the
descriptor's latest version is the synthesised string `2.0.0`. -/
theorem C7_swift_major_constraint_witness :
    swiftProcessDep [("https://github.com/apple/swift-nio", ⟨some 2, false⟩)]
        (fun _ _ => .ok [⟨"v3.2.1", false, false⟩, ⟨"v2.5.0", false, false⟩])
        (fun _ _ => .error "unused")
        ⟨"https://github.com/apple/swift-nio", "2.0.0", ""⟩ =
      ⟨"https://github.com/apple/swift-nio", some "2.0.0", "2.0.0", "swift",
        false, ""⟩ :=
  C7_swift_major_constraint
    [("https://github.com/apple/swift-nio", ⟨some 2, false⟩)]
    (fun _ _ => .ok [⟨"v3.2.1", false, false⟩, ⟨"v2.5.0", false, false⟩])
    (fun _ _ => .error "unused")
    ⟨"https://github.com/apple/swift-nio", "2.0.0", ""⟩
    ⟨some 2, false⟩ 2 "3.2.1" 3 2 1
    (by decide) rfl rfl (by rfl) (by decide) (by decide)

/-- C7 counterexample: with stable releases `v3.2.1` and `v2.5.0` and a
major-2 constraint, the highest qualifying release within major 2 is
`2.5.0` (tag `v2.5.0`, neither draft nor prerelease, major 2), yet the
resolver returns `2.0.0`. -/
theorem C7_counterexample :
    swiftProcessDep [("https://github.com/apple/swift-nio", ⟨some 2, false⟩)]
        (fun _ _ => .ok [⟨"v3.2.1", false, false⟩, ⟨"v2.5.0", false, false⟩])
        (fun _ _ => .error "unused")
        ⟨"https://github.com/apple/swift-nio", "2.0.0", ""⟩ =
      ⟨"https://github.com/apple/swift-nio", some "2.0.0", "2.0.0", "swift",
        false, ""⟩ ∧
    (dropPfxL ['v'] "v2.5.0".data).asString = "2.5.0" ∧
    ParseVersion "2.5.0" = some (2, 5, 0) ∧
    ("2.0.0" : String) ≠ "2.5.0" := by
  exact ⟨by rfl, by decide, by decide, by decide⟩

/-! ## Claim C8 -/

/-- C8 (confirmed): every `require` entry whose path equals the `old` path
of some `replace` entry yields a descriptor with `skipped = true`, skip
reason `Module is replaced`, and `latestVersion` equal to
`replaced by <new>@<ver>` built from the first matching replace entry; the
outcome is identical under any two fetch oracles — the resolver performs no
registry fetch for it — and the descriptor appears in the aggregated
result list. -/
theorem C8_go_replace (requires : List GoRequire) (replaces : List GoReplace)
    (fetch g : String → Except String String) (req : GoRequire)
    (r : GoReplace) (hreq : req ∈ requires) (hr : r ∈ replaces)
    (hold : r.old = req.path) :
    ∃ rep, replaces.find? (fun q => q.old == req.path) = some rep ∧
      rep.old = req.path ∧
      goProcessReq replaces fetch req =
        ⟨req.path, some req.version,
          "replaced by " ++ rep.new ++ "@" ++ rep.version, "go", true,
          "Module is replaced"⟩ ∧
      goProcessReq replaces fetch req = goProcessReq replaces g req ∧
      goProcessReq replaces fetch req ∈
        goGetLatestVersion requires replaces fetch := by
  have hsome : (replaces.find? (fun q => q.old == req.path)).isSome := by
    rw [List.find?_isSome]
    exact ⟨r, hr, by rw [hold]; exact beq_self_eq_true _⟩
  rcases Option.isSome_iff_exists.mp hsome with ⟨rep, hrep⟩
  have hbeq : (rep.old == req.path) = true := by
    have h2 := List.find?_some hrep
    simpa using h2
  have hrepold : rep.old = req.path := eq_of_beq hbeq
  have hbody : goProcessReq replaces fetch req =
      ⟨req.path, some req.version,
        "replaced by " ++ rep.new ++ "@" ++ rep.version, "go", true,
        "Module is replaced"⟩ := by
    unfold goProcessReq
    rw [hrep]
  have hbody2 : goProcessReq replaces g req =
      ⟨req.path, some req.version,
        "replaced by " ++ rep.new ++ "@" ++ rep.version, "go", true,
        "Module is replaced"⟩ := by
    unfold goProcessReq
    rw [hrep]
  refine ⟨rep, hrep, hrepold, hbody, hbody.trans hbody2.symm, ?_⟩
  apply mem_sortByLowerName.mpr
  exact List.mem_map.mpr ⟨req, hreq, rfl⟩

/-- C8 witness: the spec's go-with-replace scenario — `github.com/a/b`
replaced by `github.com/c/d@v2.0.0` produces exactly the documented skipped
descriptor, independently of the fetch oracle, and it appears in the
aggregate output. -/
theorem C8_go_replace_witness :
    ∃ rep, ([⟨"github.com/a/b", "github.com/c/d", "v2.0.0"⟩] :
        List GoReplace).find? (fun q => q.old == "github.com/a/b") =
          some rep ∧
      rep.old = "github.com/a/b" ∧
      goProcessReq [⟨"github.com/a/b", "github.com/c/d", "v2.0.0"⟩]
          (fun _ => .error "down") ⟨"github.com/a/b", "v1.0.0"⟩ =
        ⟨"github.com/a/b", some "v1.0.0",
          "replaced by " ++ "github.com/c/d" ++ "@" ++ "v2.0.0", "go", true,
          "Module is replaced"⟩ ∧
      goProcessReq [⟨"github.com/a/b", "github.com/c/d", "v2.0.0"⟩]
          (fun _ => .error "down") ⟨"github.com/a/b", "v1.0.0"⟩ =
        goProcessReq [⟨"github.com/a/b", "github.com/c/d", "v2.0.0"⟩]
          (fun _ => .ok "v9.9.9") ⟨"github.com/a/b", "v1.0.0"⟩ ∧
      goProcessReq [⟨"github.com/a/b", "github.com/c/d", "v2.0.0"⟩]
          (fun _ => .error "down") ⟨"github.com/a/b", "v1.0.0"⟩ ∈
        goGetLatestVersion [⟨"github.com/a/b", "v1.0.0"⟩]
          [⟨"github.com/a/b", "github.com/c/d", "v2.0.0"⟩]
          (fun _ => .error "down") := by
  have h := C8_go_replace [⟨"github.com/a/b", "v1.0.0"⟩]
    [⟨"github.com/a/b", "github.com/c/d", "v2.0.0"⟩]
    (fun _ => .error "down") (fun _ => .ok "v9.9.9")
    ⟨"github.com/a/b", "v1.0.0"⟩
    ⟨"github.com/a/b", "github.com/c/d", "v2.0.0"⟩
    (by decide) (by decide) (by decide)
  simpa using h

/-! ## Claim C9 -/

/-- C9 (corrected): each resolver emits exactly one descriptor per
successfully decoded dependency (for Python, one per non-blank,
non-comment requirement line — parse failures still yield a skipped
descriptor), but the decoding step itself silently drops malformed
entries: Rust map values that are neither strings nor objects, Rust array
elements without a `name` string, Swift elements without a `url` string and
GitHub Actions elements missing `owner` or `repo` produce no descriptor at
all, so the response can be shorter than the input beyond the documented
Python-comment and Dart-SDK skip cases. -/
theorem C9_result_counts (mdeps : List (String × RustDepVal))
    (adeps : List (Option String × Option String))
    (rdeps : List (String × String)) (rf : String → Except String String)
    (sraw : List (Option String × Option String × Option String))
    (sdeps : List SwiftDependency) (cs : VersionConstraints)
    (fr : String → String → Except String (List GitHubRelease))
    (ft : String → String → Except String (List String))
    (araw : List (Option String × Option String × Option String))
    (actions : List (String × String × Option String)) (inc : Bool)
    (af : String → String → Except String (String × String × String))
    (lines : List String) (pf : String → Except String String) :
    (rustGetLatestVersion rdeps rf).length = rdeps.length ∧
    (rustParseMapDeps mdeps).length ≤ mdeps.length ∧
    (rustParseArrDeps adeps).length ≤ adeps.length ∧
    (swiftGetLatestVersion sdeps cs fr ft).length = sdeps.length ∧
    (swiftParseDeps sraw).length ≤ sraw.length ∧
    (ghaGetLatestVersion actions inc af).length = actions.length ∧
    (ghaParseActions araw).length ≤ araw.length ∧
    (pythonGetLatestVersion lines pf).length =
      (lines.filter (fun l => decide (¬ (trimGoL l.data = [] ∨
        (trimGoL l.data).head? = some '#')))).length := by
  refine ⟨?_, ?_, ?_, ?_, ?_, ?_, ?_, ?_⟩
  · rw [rustGetLatestVersion, length_sortByLowerName, List.length_map]
  · exact List.length_filterMap_le _ _
  · exact List.length_filterMap_le _ _
  · rw [swiftGetLatestVersion, length_sortByLowerName, List.length_map]
  · exact List.length_filterMap_le _ _
  · rw [ghaGetLatestVersion, (List.perm_insertionSort ghaLe _).length_eq,
      List.length_map]
  · exact List.length_filterMap_le _ _
  · rw [pythonGetLatestVersion, length_sortByLowerName,
      length_filterMap_eq_length_filter]
    congr 1
    apply List.filter_congr
    intro l _
    unfold pythonProcessLine
    dsimp only
    by_cases hc : trimGoL l.data = [] ∨ (trimGoL l.data).head? = some '#'
    · rw [if_pos hc]
      simp [hc]
    · rw [if_neg hc]
      simp [hc]

/-- C9 witness: concrete counts — two decoded Rust dependencies give two
descriptors, and the spec's requirements scenario (a comment, a real
requirement and a blank line) gives exactly one descriptor. -/
theorem C9_result_counts_witness :
    (rustGetLatestVersion [("serde", "1.0.136"), ("tokio", "1.17.0")]
      (fun _ => .error "down")).length = 2 ∧
    (pythonGetLatestVersion ["# a comment", "requests==2.28.1", ""]
      (fun _ => .ok "2.31.0")).length = 1 := by
  have h := C9_result_counts [] [] [("serde", "1.0.136"), ("tokio", "1.17.0")]
    (fun _ => .error "down") [] [] [] (fun _ _ => .error "x")
    (fun _ _ => .error "x") [] [] false (fun _ _ => .error "x")
    ["# a comment", "requests==2.28.1", ""] (fun _ => .ok "2.31.0")
  refine ⟨h.1, ?_⟩
  rw [h.2.2.2.2.2.2.2]
  decide

/-- C9 counterexample: a Swift dependency entry without a `url` string is
dropped during decoding, so a one-element input produces an empty result
list — a shortfall that is neither a Python comment/blank line nor a Dart
SDK filter, and the malformed entry yields no (skipped or otherwise)
descriptor. -/
theorem C9_counterexample :
    swiftParseDeps [(none, some "1.0.0", none)] = [] ∧
    swiftGetLatestVersion (swiftParseDeps [(none, some "1.0.0", none)]) []
        (fun _ _ => .error "x") (fun _ _ => .error "x") = [] ∧
    ([(none, some "1.0.0", none)] :
      List (Option String × Option String × Option String)).length = 1 := by
  exact ⟨by decide, by rfl, by decide⟩

/-! ## Claim C10 -/

/-- C10 (confirmed): for the docker handler's GHCR path, when the shared
cache has no entry for the image and the image name — after prepending
`ghcr.io/` when that prefix is absent — has fewer than two path segments,
the whole call fails with the `invalid GHCR image format` error: no
descriptor and no tag list is produced (the per-dependency skip mechanism
of the other resolvers is not used). -/
theorem C10_ghcr_invalid_format (cache : SyncMap (List DockerImageVersion))
    (now : Nat) (fetch : String → String → Except String (List String))
    (compile : String → Option (String → Bool)) (image : String)
    (limit : Int) (filters : List String) (image2 : String)
    (hmiss : syncLoad cache ("ghcr:" ++ image) = none)
    (him2 : image2 =
      (if hasPfxL "ghcr.io/".data image.data then image
       else "ghcr.io/" ++ image))
    (hseg : ((dropPfxL "ghcr.io/".data image2.data).splitOn '/').length < 2) :
    getGHCRTags cache now fetch compile image limit filters =
      .error ("invalid GHCR image format: " ++ image2) := by
  unfold getGHCRTags
  rw [hmiss]
  dsimp only
  rw [← him2, if_pos hseg]

/-- C10 witness: on a fresh cache, registry `ghcr` with image `nginx`
(normalised to `ghcr.io/nginx`, a single path segment) fails with the
invalid-format error. -/
theorem C10_ghcr_invalid_format_witness :
    getGHCRTags [] 0 (fun _ _ => .ok ["latest"]) (fun _ => none) "nginx" 10
        [] =
      .error ("invalid GHCR image format: " ++ "ghcr.io/nginx") :=
  C10_ghcr_invalid_format [] 0 (fun _ _ => .ok ["latest"]) (fun _ => none)
    "nginx" 10 [] "ghcr.io/nginx" (by rfl) (by decide) (by decide)

end PkgVer
